import Mathlib

/-!
A shallow embedding of the `wodgen` workout generator (`src/main.rs`).

The Rust program loads a catalog of exercises from CSV files, filters out
snoozed and (optionally) non-bodyweight entries, and then generates a
workout group by group, type by type, finishing with a cooldown pick.
File and CSV access is out of scope; the embedding models the pure
selection engine: the data model, the filter chain, the snooze-expiry
filter, the generator loops and the presentation mapper.  Randomness
(`thread_rng`) is modelled by explicit index parameters: `gen_range(0..len)`
can return any index below `len`, which `idx % len` ranges over exactly.
Timestamps are modelled as whole seconds since the epoch (`Int`), matching
`chrono`'s `ts_seconds` serialization used by the program.
-/

namespace Wodgen

/-- Rust `enum ExerciseType` from `src/main.rs`. -/
inductive ExerciseType where
  | Cooldown
  | Core
  | Legs
  | Pull
  | Push
  deriving DecidableEq, Repr

/-- Rust `enum ExerciseCategory` from `src/main.rs`. -/
inductive ExerciseCategory where
  | Primary
  | Secondary
  | Accessory
  deriving DecidableEq, Repr

/-- Rust `enum ExerciseLevel` from `src/main.rs`. -/
inductive ExerciseLevel where
  | Beginner
  | Intermediate
  | Advanced
  deriving DecidableEq, Repr

/-- Rust `enum ExerciseProgramming` from `src/main.rs`. -/
inductive ExerciseProgramming where
  | Distance
  | Reps
  | Time
  deriving DecidableEq, Repr

/-- Rust `struct Exercise`: one catalog record. -/
structure Exercise where
  name : String
  exercise_type : ExerciseType
  exercise_category : ExerciseCategory
  exercise_level : ExerciseLevel
  exercise_programming : ExerciseProgramming
  bodyweight : Bool
  goal : Option String
  video : String
  deriving DecidableEq, Repr

/-- Rust `struct WorkoutExercise`: one output row of the generated workout. -/
structure WorkoutExercise where
  group : Nat
  name : String
  sets : String
  distance : String
  time : String
  reps : String
  goal : String
  video : String
  deriving DecidableEq, Repr

/-- Rust `struct SnoozedExercise`: a name with the timestamp (seconds since
epoch) at which it was snoozed. -/
structure SnoozedExercise where
  name : String
  timestamp : Int
  deriving DecidableEq, Repr

/-- Rust `const SNOOZE_PERIOD: i64 = 7` — snooze period in days. -/
def SNOOZE_PERIOD : Int := 7

/-- One step of Rust's `str::replace("__", " - ")`: scan left to right and
replace every non-overlapping `__` by ` - `. -/
def replaceDoubleUnderscore : List Char → List Char
  | '_' :: '_' :: rest => ' ' :: '-' :: ' ' :: replaceDoubleUnderscore rest
  | c :: rest => c :: replaceDoubleUnderscore rest
  | [] => []

/-- Rust's `str::replace('_', " ")`. -/
def replaceUnderscore (cs : List Char) : List Char :=
  cs.map (fun c => if c = '_' then ' ' else c)

/-- Rust's `split_whitespace`: split on whitespace runs, dropping empty
tokens.  `acc` holds the current word reversed. -/
def splitWhitespaceAux (acc : List Char) : List Char → List (List Char)
  | [] => if acc.isEmpty then [] else [acc.reverse]
  | c :: rest =>
    if c.isWhitespace then
      if acc.isEmpty then splitWhitespaceAux [] rest
      else acc.reverse :: splitWhitespaceAux [] rest
    else splitWhitespaceAux (c :: acc) rest

/-- The per-word closure in `to_title_case`: uppercase the first
character, keep the rest. -/
def capitalizeWord : List Char → List Char
  | [] => []
  | c :: rest => c.toUpper :: rest

/-- Function `to_title_case` from `src/main.rs`: replace `__` by ` - `, `_` by a
space, split on whitespace, capitalize each word, join with spaces. -/
def to_title_case (input : String) : String :=
  let words := splitWhitespaceAux [] (replaceUnderscore (replaceDoubleUnderscore input.data))
  String.mk (List.intercalate [' '] (words.map capitalizeWord))

/-- Function `filter_by_type` from `src/main.rs`. -/
def filter_by_type (e : Exercise) (t : ExerciseType) : Bool :=
  decide (e.exercise_type = t)

/-- Function `filter_by_level` from `src/main.rs` (the commented-out
Beginner-at-Intermediate branch of the source is not part of the code). -/
def filter_by_level (e : Exercise) (l : ExerciseLevel) : Bool :=
  match l with
  | ExerciseLevel.Beginner => decide (e.exercise_level = ExerciseLevel.Beginner)
  | ExerciseLevel.Intermediate => decide (e.exercise_level = ExerciseLevel.Intermediate)
  | ExerciseLevel.Advanced =>
    decide (e.exercise_level = ExerciseLevel.Intermediate)
      || decide (e.exercise_level = ExerciseLevel.Advanced)

/-- Function `filter_by_category` from `src/main.rs`: group-indexed priority
tiering (the Rust `match` on `g : u32` with arms `0`, `1`, `2`, `3..`). -/
def filter_by_category (e : Exercise) (g : Nat) (l : ExerciseLevel) (t : ExerciseType) : Bool :=
  match g with
  | 0 =>
    match l with
    | ExerciseLevel.Beginner => decide (e.exercise_category = ExerciseCategory.Secondary)
    | _ => decide (e.exercise_category = ExerciseCategory.Primary)
  | 1 =>
    decide (e.exercise_category = ExerciseCategory.Primary)
      || decide (e.exercise_category = ExerciseCategory.Secondary)
  | 2 =>
    match t with
    | ExerciseType.Core => decide (e.exercise_category = ExerciseCategory.Secondary)
    | _ =>
      decide (e.exercise_category = ExerciseCategory.Secondary)
        || decide (e.exercise_category = ExerciseCategory.Accessory)
  | _ + 3 =>
    match t with
    | ExerciseType.Core => decide (e.exercise_category = ExerciseCategory.Secondary)
    | _ => decide (e.exercise_category = ExerciseCategory.Accessory)

/-- Method `WorkoutExercise::from_exercise` from `src/main.rs`: mark exactly one
of distance/time/reps according to the programming style. -/
def WorkoutExercise.from_exercise (group : Nat) (exercise : Exercise) : WorkoutExercise :=
  let marks :=
    match exercise.exercise_programming with
    | ExerciseProgramming.Distance => ("X", "", "", "")
    | ExerciseProgramming.Reps => ("", "", "X", "")
    | ExerciseProgramming.Time => ("", "X", "", "")
  { group := group
    name := to_title_case exercise.name
    sets := marks.2.2.2
    distance := marks.1
    time := marks.2.1
    reps := marks.2.2.1
    goal := exercise.goal.getD ""
    video := exercise.video }

/-- Behavior of `chrono::Duration::num_days` on a whole-second duration: seconds
divided by 86400, truncating toward zero (Rust `i64` division). -/
def numDays (seconds : Int) : Int :=
  Int.tdiv seconds 86400

/-- Function `load_snoozed_exercises` from `src/main.rs`, with file reading out of
scope: keep the entries whose age in whole days is below `SNOOZE_PERIOD`. -/
def load_snoozed_exercises (now : Int) (entries : List SnoozedExercise) : List SnoozedExercise :=
  entries.filter (fun e => decide (numDays (now - e.timestamp) < SNOOZE_PERIOD))

/-- Rust `Vec::swap_remove(i)` on the nonempty vector `x :: xs` at a valid
index `i`: return the element at `i`, with the last element moved into
position `i` and the length reduced by one. -/
def swapRemove (x : α) (xs : List α) (i : Nat) : α × List α :=
  let v := x :: xs
  (v.getD i x, (v.set i (v.getLastD x)).dropLast)

/-- Function `remove_random` from `src/main.rs`: `None` on an empty vector,
otherwise `swap_remove` at the random index `idx % length` (exactly the
values `gen_range(0..len)` can produce). -/
def remove_random (idx : Nat) : List α → Option (α × List α)
  | [] => none
  | x :: xs => some (swapRemove x xs (idx % (x :: xs).length))

/-- The selection step inside `generate_workout`: the first pool element
passing the type, level and category filters for `(group, t)`. -/
def pick_exercise (pool : List Exercise) (group : Nat) (l : ExerciseLevel)
    (t : ExerciseType) : Option Exercise :=
  (((pool.filter (fun e => filter_by_type e t)).filter
      (fun e => filter_by_level e l)).filter
      (fun e => filter_by_category e group l t)).head?

/-- The inner `for t in exercise_types` loop of `generate_workout` for one
group: the pool is not mutated during the loop; every successful pick
records its name in `exercises_to_remove`, a snooze entry, and an output
row at group `group + 2`.  Returns
(exercises_to_remove, snooze additions, workout rows), each in pick order. -/
def group_picks (now : Int) (pool : List Exercise) (group : Nat) (l : ExerciseLevel) :
    List ExerciseType → List String × List SnoozedExercise × List WorkoutExercise
  | [] => ([], [], [])
  | t :: ts =>
    let rest := group_picks now pool group l ts
    match pick_exercise pool group l t with
    | none => rest
    | some e =>
      (e.name :: rest.1, ⟨e.name, now⟩ :: rest.2.1,
        WorkoutExercise.from_exercise (group + 2) e :: rest.2.2)

/-- The end-of-group
`relevant_exercises.retain(|e| !exercises_to_remove.contains(&e.name))`:
drop every pool exercise whose name was picked, whatever its type. -/
def removeNames (pool : List Exercise) (names : List String) : List Exercise :=
  pool.filter (fun e => !(names.contains e.name))

/-- The outer `for group in 0..num_groups` loop of `generate_workout`,
at group index `g` with `fuel` groups left: threads the shrinking pool and
accumulates snooze additions and output rows in order. -/
def groups_loop (now : Int) (types : List ExerciseType) (l : ExerciseLevel) :
    Nat → Nat → List Exercise → List Exercise × List SnoozedExercise × List WorkoutExercise
  | _, 0, pool => (pool, [], [])
  | g, fuel + 1, pool =>
    let step := group_picks now pool g l types
    let rest := groups_loop now types l (g + 1) fuel (removeNames pool step.1)
    (rest.1, step.2.1 ++ rest.2.1, step.2.2 ++ rest.2.2)

/-- The Skill Block placeholder row pushed first by `generate_workout`. -/
def skillBlockRow : WorkoutExercise :=
  { group := 1, name := "Skill Block", sets := "", distance := "", time := "",
    reps := "", goal := "", video := "" }

/-- Function `generate_workout` from `src/main.rs`, with the mutation of
`relevant_exercises` and `snoozed_exercises` made explicit: returns the
workout rows, the remaining pool, and the snooze records appended during
generation. -/
def generate_workout (now : Int) (relevant_exercises : List Exercise)
    (exercise_types : List ExerciseType) (exercise_level : ExerciseLevel)
    (num_groups : Nat) :
    List WorkoutExercise × List Exercise × List SnoozedExercise :=
  let r := groups_loop now exercise_types exercise_level 0 num_groups relevant_exercises
  (skillBlockRow :: r.2.2, r.1, r.2.1)

/-- Function `add_cooldown_exercise` from `src/main.rs`: `remove_random` a cooldown
exercise — the Rust `.unwrap()` panic on an empty pool is modelled as
`none` — then snooze it and append its row at group `num_groups + 2`. -/
def add_cooldown_exercise (now : Int) (idx : Nat) (workout : List WorkoutExercise)
    (cooldown_exercises : List Exercise) (snooze_additions : List SnoozedExercise)
    (num_groups : Nat) :
    Option (List WorkoutExercise × List Exercise × List SnoozedExercise) :=
  match remove_random idx cooldown_exercises with
  | none => none
  | some (e, rest) =>
    some (workout ++ [WorkoutExercise.from_exercise (num_groups + 2) e], rest,
      snooze_additions ++ [⟨e.name, now⟩])

/-- One full generation run (`generate_workout` followed by
`add_cooldown_exercise`), as wired in `main`: the workout rows and the
snooze records added during the run, or `none` when the cooldown pool is
empty (the Rust run panics there). -/
def run_generation (now : Int) (idx : Nat) (pool cooldown_pool : List Exercise)
    (types : List ExerciseType) (level : ExerciseLevel) (num_groups : Nat) :
    Option (List WorkoutExercise × List SnoozedExercise) :=
  let g := generate_workout now pool types level num_groups
  match add_cooldown_exercise now idx g.1 cooldown_pool g.2.2 num_groups with
  | none => none
  | some (workout, _, snoozes) => some (workout, snoozes)

/-- Truncating division by 86400 is below 7 exactly on durations below
604800 seconds (7 days); this bridges `num_days` and the spec's
"strictly less than 7 days". -/
theorem tdiv_86400_lt_7_iff (d : Int) : Int.tdiv d 86400 < 7 ↔ d < 604800 := by
  constructor
  · intro h
    by_contra hd
    push_neg at hd
    rw [Int.tdiv_eq_ediv (by omega) (by norm_num)] at h
    omega
  · intro h
    rcases le_or_lt 0 d with h0 | h0
    · rw [Int.tdiv_eq_ediv h0 (by norm_num)]
      omega
    · have h1 : (0 : Int) ≤ -d := by omega
      have h2 : 0 ≤ Int.tdiv (-d) 86400 := Int.tdiv_nonneg h1 (by norm_num)
      have h3 : Int.tdiv (-d) 86400 = -(Int.tdiv d 86400) := Int.neg_tdiv d 86400
      omega

/-- C2: the category filter matches the enumerated tiering: at `g = 0` it
requires Secondary for a Beginner request and Primary otherwise; at
`g = 1` Primary or Secondary; at `g = 2` Secondary for Core and
Secondary-or-Accessory otherwise; at every `g ≥ 3` Secondary for Core and
Accessory only otherwise. -/
theorem claim_C2_filter_by_category (e : Exercise) (g : Nat) (l : ExerciseLevel)
    (t : ExerciseType) :
    filter_by_category e g l t = true ↔
      ((g = 0 ∧ ((l = ExerciseLevel.Beginner ∧
          e.exercise_category = ExerciseCategory.Secondary) ∨
        (l ≠ ExerciseLevel.Beginner ∧
          e.exercise_category = ExerciseCategory.Primary))) ∨
      (g = 1 ∧ (e.exercise_category = ExerciseCategory.Primary ∨
        e.exercise_category = ExerciseCategory.Secondary)) ∨
      (g = 2 ∧ ((t = ExerciseType.Core ∧
          e.exercise_category = ExerciseCategory.Secondary) ∨
        (t ≠ ExerciseType.Core ∧ (e.exercise_category = ExerciseCategory.Secondary ∨
          e.exercise_category = ExerciseCategory.Accessory)))) ∨
      (3 ≤ g ∧ ((t = ExerciseType.Core ∧
          e.exercise_category = ExerciseCategory.Secondary) ∨
        (t ≠ ExerciseType.Core ∧
          e.exercise_category = ExerciseCategory.Accessory)))) := by
  obtain ⟨nm, ty, cat, lev, prog, bw, gl, vid⟩ := e
  rcases g with _ | _ | _ | g
  · cases l <;> cases cat <;> simp [filter_by_category]
  · cases cat <;> simp [filter_by_category]
  · cases t <;> cases cat <;> simp [filter_by_category]
  · cases t <;> cases cat <;>
      simp [filter_by_category, Nat.le_add_left,
        (by omega : g + 3 ≠ 0), (by omega : g + 3 ≠ 1), (by omega : g + 3 ≠ 2)]

/-- C3: the level filter is the enumerated asymmetric policy: Beginner
requests admit only Beginner, Intermediate requests only Intermediate,
Advanced requests Intermediate or Advanced. -/
theorem claim_C3_filter_by_level (e : Exercise) (l : ExerciseLevel) :
    filter_by_level e l = true ↔
      ((l = ExerciseLevel.Beginner ∧ e.exercise_level = ExerciseLevel.Beginner) ∨
      (l = ExerciseLevel.Intermediate ∧
        e.exercise_level = ExerciseLevel.Intermediate) ∨
      (l = ExerciseLevel.Advanced ∧ (e.exercise_level = ExerciseLevel.Intermediate ∨
        e.exercise_level = ExerciseLevel.Advanced))) := by
  obtain ⟨nm, ty, cat, lev, prog, bw, gl, vid⟩ := e
  cases l <;> cases lev <;> simp [filter_by_level]

/-- C4: loading the snoozed list keeps exactly the entries whose age
`now - timestamp` is strictly below 7 days (604800 seconds); older
entries are discarded. -/
theorem claim_C4_load_snoozed (now : Int) (entries : List SnoozedExercise) :
    load_snoozed_exercises now entries =
      entries.filter (fun e => decide (now - e.timestamp < 604800)) := by
  unfold load_snoozed_exercises
  apply List.filter_congr
  intro e _
  have h := tdiv_86400_lt_7_iff (now - e.timestamp)
  simp only [numDays, SNOOZE_PERIOD, decide_eq_decide]
  exact h

/-- C5: when the cooldown pool is empty, `add_cooldown_exercise` cannot
complete: the embedded run yields `none` — in Rust, the
`remove_random(...).unwrap()` panics, aborting the run with a generic
`Option::unwrap` message that carries no file, record or field context. -/
theorem claim_C5_empty_cooldown_fatal (now : Int) (idx : Nat)
    (workout : List WorkoutExercise) (snoozes : List SnoozedExercise)
    (num_groups : Nat) :
    add_cooldown_exercise now idx workout [] snoozes num_groups = none := rfl

/-- C6: `from_exercise` marks exactly one of distance/time/reps with "X",
chosen solely by the programming style, leaves the other two and `sets`
empty, and defaults a missing goal to the empty string. -/
theorem claim_C6_from_exercise (group : Nat) (e : Exercise) :
    (WorkoutExercise.from_exercise group e).sets = "" ∧
    (WorkoutExercise.from_exercise group e).goal = e.goal.getD "" ∧
    (match e.exercise_programming with
      | ExerciseProgramming.Distance =>
        (WorkoutExercise.from_exercise group e).distance = "X" ∧
        (WorkoutExercise.from_exercise group e).time = "" ∧
        (WorkoutExercise.from_exercise group e).reps = ""
      | ExerciseProgramming.Reps =>
        (WorkoutExercise.from_exercise group e).distance = "" ∧
        (WorkoutExercise.from_exercise group e).time = "" ∧
        (WorkoutExercise.from_exercise group e).reps = "X"
      | ExerciseProgramming.Time =>
        (WorkoutExercise.from_exercise group e).distance = "" ∧
        (WorkoutExercise.from_exercise group e).time = "X" ∧
        (WorkoutExercise.from_exercise group e).reps = "") := by
  obtain ⟨nm, ty, cat, lev, prog, bw, gl, vid⟩ := e
  cases prog <;> simp [WorkoutExercise.from_exercise]

/-- C7: the title-casing examples: underscores become spaces, double
underscores become " - ", each word is capitalized. -/
theorem claim_C7_to_title_case :
    to_title_case "single_leg_deadlift" = "Single Leg Deadlift" ∧
    to_title_case "row__band" = "Row - Band" := ⟨rfl, rfl⟩

/-- C8: when no candidate passes the filter chain for `(group, t)`, the
slot is omitted and generation continues unchanged with the remaining
types — no error is possible. -/
theorem claim_C8_empty_slot_skipped (now : Int) (pool : List Exercise) (group : Nat)
    (l : ExerciseLevel) (t : ExerciseType) (ts : List ExerciseType)
    (h : pick_exercise pool group l t = none) :
    group_picks now pool group l (t :: ts) = group_picks now pool group l ts := by
  simp [group_picks, h]

/-- Witness for C8 at a concrete slot: a Legs-only pool has no Push
candidate, so the Push slot of group 0 is skipped. -/
theorem claim_C8_witness :
    pick_exercise [⟨"lunge", ExerciseType.Legs, ExerciseCategory.Primary,
        ExerciseLevel.Intermediate, ExerciseProgramming.Reps, true, none, "v"⟩]
      0 ExerciseLevel.Intermediate ExerciseType.Push = none ∧
    group_picks 0 [⟨"lunge", ExerciseType.Legs, ExerciseCategory.Primary,
        ExerciseLevel.Intermediate, ExerciseProgramming.Reps, true, none, "v"⟩]
      0 ExerciseLevel.Intermediate [ExerciseType.Push, ExerciseType.Legs] =
    group_picks 0 [⟨"lunge", ExerciseType.Legs, ExerciseCategory.Primary,
        ExerciseLevel.Intermediate, ExerciseProgramming.Reps, true, none, "v"⟩]
      0 ExerciseLevel.Intermediate [ExerciseType.Legs] :=
  ⟨rfl, claim_C8_empty_slot_skipped 0 _ 0 ExerciseLevel.Intermediate
    ExerciseType.Push [ExerciseType.Legs] rfl⟩

/-- C9: within one group every pick is taken against the same pool
snapshot (the removal list does not influence later same-group picks), the
end-of-group `retain` keeps exactly the pool exercises whose name was not
picked — whatever their type — and the group loop defers the removal to
the end of the group. -/
theorem claim_C9_group_snapshot (now : Int) (pool : List Exercise) (g : Nat)
    (l : ExerciseLevel) (types : List ExerciseType) :
    (group_picks now pool g l types).1 =
      types.filterMap (fun t => (pick_exercise pool g l t).map Exercise.name) ∧
    (∀ x : Exercise, x ∈ removeNames pool (group_picks now pool g l types).1 ↔
      (x ∈ pool ∧ x.name ∉ (group_picks now pool g l types).1)) ∧
    (∀ fuel : Nat, groups_loop now types l g (fuel + 1) pool =
      (let step := group_picks now pool g l types
       let rest := groups_loop now types l (g + 1) fuel (removeNames pool step.1)
       (rest.1, step.2.1 ++ rest.2.1, step.2.2 ++ rest.2.2))) := by
  refine ⟨?_, ?_, ?_⟩
  · induction types with
    | nil => rfl
    | cons t ts ih =>
      cases h : pick_exercise pool g l t <;>
        simp [group_picks, List.filterMap_cons, h, ih]
  · intro x
    simp [removeNames, List.mem_filter]
  · intro fuel
    rfl

/-- Setting an entry of a list to its own value is the identity. -/
theorem set_getElem_self_of_lt {α : Type} :
    ∀ (l : List α) (i : Nat) (h : i < l.length), l.set i l[i] = l
  | _ :: _, 0, _ => rfl
  | a :: l, i + 1, h =>
    congrArg (a :: ·) (set_getElem_self_of_lt l i (Nat.lt_of_succ_lt_succ h))

/-- Pulling the `i`-th element to the front while overwriting its slot
with `z` is, up to permutation, pushing `z` onto the list. -/
theorem getElem_cons_set_perm {α : Type} :
    ∀ (l : List α) (i : Nat) (h : i < l.length) (z : α),
      List.Perm (l[i] :: l.set i z) (z :: l)
  | _ :: l, 0, _, z => List.Perm.swap z _ l
  | a :: l, i + 1, h, z => by
    have h' : i < l.length := Nat.lt_of_succ_lt_succ h
    have ih := getElem_cons_set_perm l i h' z
    simp only [List.getElem_cons_succ, List.set_cons_succ]
    exact ((List.Perm.swap a _ (l.set i z)).trans (ih.cons a)).trans
      (List.Perm.swap z a l)

/-- Rust `swap_remove` in closed form: the extracted element reattached to the
shrunk vector is a permutation of the input. -/
theorem getD_cons_set_getLastD_dropLast_perm {α : Type} (D : List α) (z d : α)
    (i : Nat) (hi : i < (D ++ [z]).length) :
    List.Perm ((D ++ [z]).getD i d ::
      ((D ++ [z]).set i ((D ++ [z]).getLastD d)).dropLast) (D ++ [z]) := by
  have hlast : (D ++ [z]).getLastD d = z := by
    rw [List.getLastD_eq_getLast?, List.getLast?_concat]
    rfl
  have hget : (D ++ [z]).getD i d = (D ++ [z])[i] := List.getD_eq_getElem _ _ hi
  rw [hlast, hget]
  have hlen : i < D.length ∨ i = D.length := by
    rw [List.length_append] at hi
    simp at hi
    omega
  rcases hlen with hlt | heq
  · rw [List.set_append_left _ _ hlt, List.dropLast_concat]
    have hD : (D ++ [z])[i] = D.get ⟨i, hlt⟩ := List.getElem_append_left hlt
    rw [hD]
    exact (getElem_cons_set_perm D i hlt z).trans
      (List.perm_append_singleton z D).symm
  · have hgz : (D ++ [z])[i] = z := List.getElem_concat_length D z i heq hi
    have hset : (D ++ [z]).set i z = D ++ [z] := by
      have hself := set_getElem_self_of_lt (D ++ [z]) i hi
      rwa [hgz] at hself
    rw [hgz, hset, List.dropLast_concat]
    exact (List.perm_append_singleton z D).symm

/-- A successful `remove_random` returns an element of the input. -/
theorem remove_random_mem {α : Type} {idx : Nat} {v : List α} {a : α} {v' : List α}
    (h : remove_random idx v = some (a, v')) : a ∈ v := by
  match v with
  | [] => simp [remove_random] at h
  | x :: xs =>
    simp only [remove_random, swapRemove, Option.some.injEq, Prod.mk.injEq] at h
    obtain ⟨ha, _⟩ := h
    have hi : idx % (x :: xs).length < (x :: xs).length :=
      Nat.mod_lt _ (by simp)
    rw [List.getD_eq_getElem _ _ hi] at ha
    exact ha ▸ List.getElem_mem hi

/-- A successful `remove_random` removes exactly one occurrence: the
returned element together with the remaining vector is a permutation of
the input. -/
theorem remove_random_perm {α : Type} {idx : Nat} {v : List α} {a : α} {v' : List α}
    (h : remove_random idx v = some (a, v')) :
    List.Perm (a :: v') v := by
  match v with
  | [] => simp [remove_random] at h
  | x :: xs =>
    simp only [remove_random, swapRemove, Option.some.injEq, Prod.mk.injEq] at h
    obtain ⟨ha, hv⟩ := h
    have hi : idx % (x :: xs).length < (x :: xs).length := Nat.mod_lt _ (by simp)
    obtain hnil | ⟨D, z, hDz⟩ := (x :: xs).eq_nil_or_concat
    · simp at hnil
    · subst ha
      subst hv
      rw [List.concat_eq_append] at hDz
      rw [hDz] at hi ⊢
      exact getD_cons_set_getLastD_dropLast_perm D z x _ hi

/-- C10: `remove_random` is total and `Option`-guarded: it returns `none`
exactly on the empty vector; otherwise the returned element was in the
input, the vector shrinks by one, and the remaining elements are the
other elements of the input (the pair is a permutation of the input). -/
theorem claim_C10_remove_random {α : Type} (idx : Nat) (v : List α) :
    (remove_random idx v = none ↔ v = []) ∧
    (∀ (a : α) (v' : List α), remove_random idx v = some (a, v') →
      a ∈ v ∧ v'.length = v.length - 1 ∧ List.Perm (a :: v') v) := by
  constructor
  · cases v <;> simp [remove_random]
  · intro a v' h
    have hperm := remove_random_perm h
    refine ⟨remove_random_mem h, ?_, hperm⟩
    have := hperm.length_eq
    simp at this
    omega

/-- Witness for C10 on a concrete vector: index 5 wraps to slot 1, the
element 20 is removed and the last element 40 is swapped into its place. -/
theorem claim_C10_witness :
    (remove_random 5 ([10, 20, 30, 40] : List Nat) = none ↔
      ([10, 20, 30, 40] : List Nat) = []) ∧
    (20 ∈ ([10, 20, 30, 40] : List Nat) ∧
      ([10, 40, 30] : List Nat).length = ([10, 20, 30, 40] : List Nat).length - 1 ∧
      List.Perm (20 :: [10, 40, 30]) [10, 20, 30, 40]) :=
  ⟨(claim_C10_remove_random 5 _).1,
    (claim_C10_remove_random 5 _).2 20 [10, 40, 30] rfl⟩

/-- A successful pick is an element of the pool and has the requested
type. -/
theorem pick_exercise_mem {pool : List Exercise} {g : Nat} {l : ExerciseLevel}
    {t : ExerciseType} {e : Exercise} (h : pick_exercise pool g l t = some e) :
    e ∈ pool ∧ e.exercise_type = t := by
  unfold pick_exercise at h
  have hm : e ∈ ((pool.filter (fun e => filter_by_type e t)).filter
      (fun e => filter_by_level e l)).filter
      (fun e => filter_by_category e g l t) :=
    List.mem_of_mem_head? h
  rw [List.mem_filter] at hm
  obtain ⟨hm, -⟩ := hm
  rw [List.mem_filter] at hm
  obtain ⟨hm, -⟩ := hm
  rw [List.mem_filter] at hm
  obtain ⟨hp, ht⟩ := hm
  refine ⟨hp, ?_⟩
  simpa [filter_by_type] using ht

/-- Distinct names identify pool members: with a `Nodup` name list, two
pool exercises with the same name are the same exercise. -/
theorem name_inj {pool : List Exercise}
    (hN : (pool.map Exercise.name).Nodup) {e1 e2 : Exercise}
    (h1 : e1 ∈ pool) (h2 : e2 ∈ pool) (h : e1.name = e2.name) : e1 = e2 :=
  List.inj_on_of_nodup_map hN h1 h2 h

/-- The removal list of a group is exactly the names of the snooze
records the group appends. -/
theorem group_picks_fst_eq (now : Int) (pool : List Exercise) (g : Nat)
    (l : ExerciseLevel) (types : List ExerciseType) :
    (group_picks now pool g l types).1 =
      ((group_picks now pool g l types).2.1).map SnoozedExercise.name := by
  induction types with
  | nil => rfl
  | cons t ts ih => cases h : pick_exercise pool g l t <;> simp [group_picks, h, ih]

/-- With distinct pool names and distinct requested types, the names a
group picks are distinct, and each traces back to a pick for one of the
requested types against the snapshot. -/
theorem group_picks_nodup (now : Int) (pool : List Exercise) (g : Nat)
    (l : ExerciseLevel) (hN : (pool.map Exercise.name).Nodup) :
    ∀ types : List ExerciseType, types.Nodup →
      ((group_picks now pool g l types).1.Nodup ∧
        ∀ nm ∈ (group_picks now pool g l types).1,
          ∃ t ∈ types, ∃ e, pick_exercise pool g l t = some e ∧ nm = e.name) := by
  intro types
  induction types with
  | nil =>
    intro _
    simp [group_picks]
  | cons t ts ih =>
    intro hT
    rw [List.nodup_cons] at hT
    obtain ⟨htn, hts⟩ := hT
    obtain ⟨ihN, ihP⟩ := ih hts
    cases h : pick_exercise pool g l t with
    | none =>
      have hfst : (group_picks now pool g l (t :: ts)).1 =
          (group_picks now pool g l ts).1 := by
        simp [group_picks, h]
      constructor
      · rw [hfst]
        exact ihN
      · intro nm hm
        rw [hfst] at hm
        obtain ⟨t', ht', e', he', rfl⟩ := ihP nm hm
        exact ⟨t', List.mem_cons_of_mem t ht', e', he', rfl⟩
    | some e =>
      have hfst : (group_picks now pool g l (t :: ts)).1 =
          e.name :: (group_picks now pool g l ts).1 := by
        simp [group_picks, h]
      constructor
      · rw [hfst, List.nodup_cons]
        refine ⟨?_, ihN⟩
        intro hmem
        obtain ⟨t', ht', e', he', hname⟩ := ihP e.name hmem
        have h1 := pick_exercise_mem h
        have h2 := pick_exercise_mem he'
        have heq : e = e' := name_inj hN h1.1 h2.1 hname
        have htt : t = t' := by rw [← h1.2, heq, h2.2]
        exact htn (by rw [htt]; exact ht')
      · intro nm hm
        rw [hfst] at hm
        rcases List.mem_cons.mp hm with rfl | hm'
        · exact ⟨t, List.mem_cons_self t ts, e, h, rfl⟩
        · obtain ⟨t', ht', e', he', rfl⟩ := ihP nm hm'
          exact ⟨t', List.mem_cons_of_mem t ht', e', he', rfl⟩

/-- Snooze names accumulated by the whole group loop are distinct and all
come from the initial pool, when pool names and requested types are
distinct. -/
theorem groups_loop_nodup (now : Int) (types : List ExerciseType)
    (l : ExerciseLevel) (hT : types.Nodup) :
    ∀ (fuel g : Nat) (pool : List Exercise), (pool.map Exercise.name).Nodup →
      ((((groups_loop now types l g fuel pool).2.1).map SnoozedExercise.name).Nodup ∧
        ∀ nm ∈ ((groups_loop now types l g fuel pool).2.1).map SnoozedExercise.name,
          nm ∈ pool.map Exercise.name)
  | 0, g, pool, hN => by simp [groups_loop]
  | fuel + 1, g, pool, hN => by
    obtain ⟨stepN, stepP⟩ := group_picks_nodup now pool g l hN types hT
    have hfst := group_picks_fst_eq now pool g l types
    have hsub : ((removeNames pool (group_picks now pool g l types).1).map
        Exercise.name).Sublist (pool.map Exercise.name) :=
      List.Sublist.map _ (List.filter_sublist pool)
    have hN' : ((removeNames pool (group_picks now pool g l types).1).map
        Exercise.name).Nodup := List.Nodup.sublist hsub hN
    obtain ⟨restN, restP⟩ := groups_loop_nodup now types l hT fuel (g + 1)
      (removeNames pool (group_picks now pool g l types).1) hN'
    have hloop : (groups_loop now types l g (fuel + 1) pool).2.1 =
        (group_picks now pool g l types).2.1 ++
          (groups_loop now types l (g + 1) fuel
            (removeNames pool (group_picks now pool g l types).1)).2.1 := rfl
    constructor
    · rw [hloop, List.map_append]
      refine List.Nodup.append ?_ restN ?_
      · rw [← hfst]
        exact stepN
      · intro nm hm1 hm2
        have hm1' : nm ∈ (group_picks now pool g l types).1 := by
          rw [hfst]
          exact hm1
        obtain ⟨x, hx, rfl⟩ := List.mem_map.mp (restP nm hm2)
        rw [removeNames, List.mem_filter] at hx
        obtain ⟨-, hxn⟩ := hx
        simp at hxn
        exact hxn hm1'
    · intro nm hm
      rw [hloop, List.map_append, List.mem_append] at hm
      rcases hm with hm | hm
      · have hm' : nm ∈ (group_picks now pool g l types).1 := by
          rw [hfst]
          exact hm
        obtain ⟨t', ht', e', he', rfl⟩ := stepP nm hm'
        exact List.mem_map_of_mem _ (pick_exercise_mem he').1
      · exact hsub.subset (restP nm hm)

/-- C1 (amended): provided the requested type list has no duplicates and
no two exercises across the candidate pool and the cooldown pool share a
name, no source exercise name appears twice in one generated run: the
snooze records the run appends — the sources of all non-placeholder
rows — carry pairwise distinct names. -/
theorem claim_C1_no_duplicate_names (now : Int) (idx : Nat)
    (pool cooldown_pool : List Exercise) (types : List ExerciseType)
    (level : ExerciseLevel) (num_groups : Nat)
    (hN : ((pool ++ cooldown_pool).map Exercise.name).Nodup)
    (hT : types.Nodup) :
    ∀ w sns, run_generation now idx pool cooldown_pool types level num_groups =
        some (w, sns) →
      (sns.map SnoozedExercise.name).Nodup := by
  intro w sns h
  rw [List.map_append] at hN
  have hpool : (pool.map Exercise.name).Nodup := List.Nodup.of_append_left hN
  have hdisj : (pool.map Exercise.name).Disjoint (cooldown_pool.map Exercise.name) :=
    List.disjoint_of_nodup_append hN
  cases hc : remove_random idx cooldown_pool with
  | none => simp [run_generation, add_cooldown_exercise, hc] at h
  | some p =>
    obtain ⟨ce, crest⟩ := p
    have hsns : sns = (groups_loop now types level 0 num_groups pool).2.1 ++
        [⟨ce.name, now⟩] := by
      simp [run_generation, add_cooldown_exercise, generate_workout, hc] at h
      exact h.2.symm
    obtain ⟨mainN, mainP⟩ := groups_loop_nodup now types level hT num_groups 0 pool hpool
    have hce : ce ∈ cooldown_pool := remove_random_mem hc
    rw [hsns, List.map_append]
    refine List.Nodup.append mainN (by simp) ?_
    intro nm hm1 hm2
    simp at hm2
    subst hm2
    exact hdisj (mainP _ hm1) (List.mem_map_of_mem _ hce)

/-- Counterexample to C1 as stated: two Intermediate Primary exercises
share the name "x" but differ in type; one group over [Push, Pull] picks
both against the same snapshot, so the run repeats the name "x" in its
rows (and snooze records) — the uniqueness guarantee fails for pools
where exercises of different types share a name. -/
theorem claim_C1_counterexample :
    (run_generation 0 0
        [⟨"x", ExerciseType.Push, ExerciseCategory.Primary, ExerciseLevel.Intermediate,
          ExerciseProgramming.Reps, true, none, "v"⟩,
         ⟨"x", ExerciseType.Pull, ExerciseCategory.Primary, ExerciseLevel.Intermediate,
          ExerciseProgramming.Reps, true, none, "v"⟩]
        [⟨"z", ExerciseType.Cooldown, ExerciseCategory.Primary, ExerciseLevel.Intermediate,
          ExerciseProgramming.Reps, true, none, "v"⟩]
        [ExerciseType.Push, ExerciseType.Pull] ExerciseLevel.Intermediate 1).map
      (fun p => (p.1.map WorkoutExercise.name, p.2.map SnoozedExercise.name)) =
      some (["Skill Block", "X", "X", "Z"], ["x", "x", "z"]) ∧
    ¬ (["x", "x", "z"] : List String).Nodup := by
  constructor
  · rfl
  · decide

/-- Witness for the amended C1 on a concrete run with pairwise distinct
names: one Push group plus the cooldown yields snooze names ["a", "z"],
which are distinct. -/
theorem claim_C1_witness :
    ((([⟨"a", ExerciseType.Push, ExerciseCategory.Primary, ExerciseLevel.Intermediate,
          ExerciseProgramming.Reps, true, none, "v"⟩] ++
        [⟨"z", ExerciseType.Cooldown, ExerciseCategory.Primary, ExerciseLevel.Intermediate,
          ExerciseProgramming.Reps, true, none, "v"⟩] : List Exercise).map
        Exercise.name).Nodup ∧
      ([ExerciseType.Push] : List ExerciseType).Nodup) ∧
    ((([⟨"a", 0⟩, ⟨"z", 0⟩] : List SnoozedExercise).map SnoozedExercise.name).Nodup) :=
  ⟨⟨by decide, by decide⟩,
    claim_C1_no_duplicate_names 0 0
      [⟨"a", ExerciseType.Push, ExerciseCategory.Primary, ExerciseLevel.Intermediate,
        ExerciseProgramming.Reps, true, none, "v"⟩]
      [⟨"z", ExerciseType.Cooldown, ExerciseCategory.Primary, ExerciseLevel.Intermediate,
        ExerciseProgramming.Reps, true, none, "v"⟩]
      [ExerciseType.Push] ExerciseLevel.Intermediate 1 (by decide) (by decide)
      _ [⟨"a", 0⟩, ⟨"z", 0⟩] rfl⟩

end Wodgen
